import Mathlib

/-!
Shallow embedding of the StockWatcher Stream Deck plugin
(`src/actions/stock-quote.ts`, in its two historical variants: the
authenticated Finnhub quote API and the unauthenticated Yahoo chart API),
together with proofs of the behavioural properties stated in the
specification.

Conventions of the embedding:
* Prices are modelled as `Rat` (the JavaScript source uses IEEE doubles;
  every claim proved here is about value selection and algebraic
  recomputation, not about rounding of binary floating point).
* Fallible code is modelled with `Option` / `Except`.
* The event-driven scheduler is modelled as explicit state passing over a
  `SchedState`, with `setInterval` / `clearInterval` reified as a list of
  live timers.
* `fetch` is modelled by an environment `responses : Nat → HttpResponse`
  giving the response to the n-th request attempt.
-/

namespace StockWatcher

/-! ## HTTP responses and the retry client

Models `fetchWithBackoff` (Finnhub variant) / `fetchWithRetry` (Yahoo
variant); the two functions share the identical control flow:

    for (let attempt = 0; attempt <= maxRetries; attempt++) {
        const response = await fetch(url);
        if (response.ok) return ...;
        if (response.status === 429) {
            if (attempt < maxRetries) {
                const delay = initialDelay * Math.pow(2, attempt);
                await sleep(delay);
                lastError = new Error("Rate limit exceeded");
                continue;
            }
            throw new Error("Rate limit exceeded after maximum retries");
        }
        throw new Error(`Request failed: ...`);
    }
    throw lastError || new Error("Request failed");
-/

/-- An HTTP response as observed by the retry loop.  `ok` is the WHATWG
fetch `Response.ok` accessor: status in the inclusive range 200–299. -/
structure HttpResponse where
  status : Nat
  statusText : String
  body : String
deriving DecidableEq, Repr

/-- Models `Response.ok`: true exactly when the status code is 2xx. -/
def HttpResponse.ok (r : HttpResponse) : Bool :=
  200 ≤ r.status && r.status < 300

/-- The error taxonomy of the retry client. -/
inductive FetchError where
  | rateLimitExceeded
  | requestFailed (status : Nat) (reason : String)
deriving DecidableEq, Repr

/-- Outcome of the retry loop.  `fallthrough` is the trailing
`throw lastError || new Error("Request failed")` statement after the loop,
reached only if the `for` condition ever fails. -/
inductive LoopOutcome where
  | success (r : HttpResponse)
  | failure (e : FetchError)
  | fallthrough
deriving DecidableEq, Repr

/-- Observable trace of one call to the retry client: the final outcome,
the sleep durations performed (in order), and the number of `fetch`
request attempts issued. -/
structure RetryTrace where
  outcome : LoopOutcome
  sleeps : List Nat
  fetches : Nat
deriving DecidableEq, Repr

/-- The `for` loop of `fetchWithBackoff` / `fetchWithRetry`, entered at a
given `attempt` index with the sleeps and fetches performed so far. -/
def fetchLoop (responses : Nat → HttpResponse) (maxRetries initialDelay : Nat)
    (attempt : Nat) (sleeps : List Nat) (fetches : Nat) : RetryTrace :=
  if hcond : attempt ≤ maxRetries then
    let r := responses attempt
    if r.ok then
      ⟨.success r, sleeps, fetches + 1⟩
    else if r.status = 429 then
      if hlt : attempt < maxRetries then
        fetchLoop responses maxRetries initialDelay (attempt + 1)
          (sleeps ++ [initialDelay * 2 ^ attempt]) (fetches + 1)
      else
        ⟨.failure .rateLimitExceeded, sleeps, fetches + 1⟩
    else
      ⟨.failure (.requestFailed r.status r.statusText), sleeps, fetches + 1⟩
  else
    ⟨.fallthrough, sleeps, fetches⟩
termination_by maxRetries + 1 - attempt
decreasing_by omega

/-- Models `fetchWithBackoff` / `fetchWithRetry`: run the retry loop from
attempt 0 with nothing slept or fetched yet. -/
def fetchWithRetry (responses : Nat → HttpResponse) (maxRetries initialDelay : Nat) :
    RetryTrace :=
  fetchLoop responses maxRetries initialDelay 0 [] 0

/-- A 429 status is never a 2xx status. -/
theorem ok_eq_false_of_status_429 {r : HttpResponse} (h : r.status = 429) :
    r.ok = false := by
  simp [HttpResponse.ok, h]

/-- Reindexing of the accumulated sleep-duration list when one more
backoff sleep is peeled off the front. -/
theorem sleeps_shift (initialDelay attempt k : Nat) (sleeps : List Nat) :
    (sleeps ++ [initialDelay * 2 ^ attempt]) ++
      (List.range k).map (fun i => initialDelay * 2 ^ (attempt + 1 + i)) =
    sleeps ++ (List.range (k + 1)).map (fun i => initialDelay * 2 ^ (attempt + i)) := by
  rw [List.append_assoc, List.range_succ_eq_map, List.map_cons, List.map_map,
    List.singleton_append]
  congr 2
  congr 1
  funext i
  simp only [Function.comp_apply]
  have h : attempt + 1 + i = attempt + Nat.succ i := by omega
  rw [h]

/-- If the next `k` responses are all 429 and the one after them is 2xx
(`k` staying within the retry budget), the loop returns that response,
having slept `initialDelay * 2^attempt, ...` for each 429 and fetched
`k + 1` more times. -/
theorem fetchLoop_success (responses : Nat → HttpResponse)
    (maxRetries initialDelay : Nat) :
    ∀ k attempt sleeps fetches, attempt + k ≤ maxRetries →
    (∀ i < k, (responses (attempt + i)).status = 429) →
    (responses (attempt + k)).ok = true →
    fetchLoop responses maxRetries initialDelay attempt sleeps fetches =
      ⟨.success (responses (attempt + k)),
       sleeps ++ (List.range k).map (fun i => initialDelay * 2 ^ (attempt + i)),
       fetches + (k + 1)⟩ := by
  intro k
  induction k with
  | zero =>
      intro attempt sleeps fetches hle _ hok
      rw [fetchLoop]
      simp only [Nat.add_zero] at hle hok ⊢
      rw [dif_pos hle]
      simp [hok]
  | succ k ih =>
      intro attempt sleeps fetches hle h429 hok
      have h0 : (responses attempt).status = 429 := by
        have := h429 0 (Nat.succ_pos k)
        simpa using this
      have hnotok : (responses attempt).ok = false := ok_eq_false_of_status_429 h0
      rw [fetchLoop]
      rw [dif_pos (by omega : attempt ≤ maxRetries)]
      simp only [hnotok, Bool.false_eq_true, if_false, h0, if_true, if_pos rfl]
      rw [dif_pos (by omega : attempt < maxRetries)]
      have hrec := ih (attempt + 1) (sleeps ++ [initialDelay * 2 ^ attempt])
        (fetches + 1) (by omega)
        (fun i hi => by
          have := h429 (i + 1) (by omega)
          simpa [Nat.add_comm, Nat.add_assoc, Nat.add_left_comm] using this)
        (by
          have : attempt + 1 + k = attempt + (k + 1) := by omega
          rw [this]; exact hok)
      rw [hrec]
      have harr : attempt + 1 + k = attempt + (k + 1) := by omega
      have hc : fetches + 1 + (k + 1) = fetches + (k + 1 + 1) := by omega
      rw [harr, sleeps_shift, hc]

/-- If the retry budget runs out after `k` further attempts and every
remaining attempt observes a 429, the loop fails with
`rateLimitExceeded` after fetching `k + 1` more times. -/
theorem fetchLoop_exhaust (responses : Nat → HttpResponse)
    (maxRetries initialDelay : Nat) :
    ∀ k attempt sleeps fetches, attempt + k = maxRetries →
    (∀ i ≤ k, (responses (attempt + i)).status = 429) →
    fetchLoop responses maxRetries initialDelay attempt sleeps fetches =
      ⟨.failure .rateLimitExceeded,
       sleeps ++ (List.range k).map (fun i => initialDelay * 2 ^ (attempt + i)),
       fetches + (k + 1)⟩ := by
  intro k
  induction k with
  | zero =>
      intro attempt sleeps fetches heq h429
      have h0 : (responses attempt).status = 429 := by simpa using h429 0 (Nat.le_refl 0)
      have hnotok : (responses attempt).ok = false := ok_eq_false_of_status_429 h0
      rw [fetchLoop]
      rw [dif_pos (by omega : attempt ≤ maxRetries)]
      simp only [hnotok, Bool.false_eq_true, if_false, h0, if_pos rfl]
      rw [dif_neg (by omega : ¬ attempt < maxRetries)]
      simp
  | succ k ih =>
      intro attempt sleeps fetches heq h429
      have h0 : (responses attempt).status = 429 := by simpa using h429 0 (Nat.zero_le _)
      have hnotok : (responses attempt).ok = false := ok_eq_false_of_status_429 h0
      rw [fetchLoop]
      rw [dif_pos (by omega : attempt ≤ maxRetries)]
      simp only [hnotok, Bool.false_eq_true, if_false, h0, if_pos rfl]
      rw [dif_pos (by omega : attempt < maxRetries)]
      have hrec := ih (attempt + 1) (sleeps ++ [initialDelay * 2 ^ attempt])
        (fetches + 1) (by omega)
        (fun i hi => by
          have := h429 (i + 1) (by omega)
          simpa [Nat.add_comm, Nat.add_assoc, Nat.add_left_comm] using this)
      rw [hrec]
      have hc : fetches + 1 + (k + 1) = fetches + (k + 1 + 1) := by omega
      rw [sleeps_shift, hc]
      exact if_pos trivial

/-- After `k` further 429 responses within budget, a response that is
neither 2xx nor 429 makes the loop fail immediately with
`requestFailed`, with no additional sleep. -/
theorem fetchLoop_requestFailed (responses : Nat → HttpResponse)
    (maxRetries initialDelay : Nat) :
    ∀ k attempt sleeps fetches, attempt + k ≤ maxRetries →
    (∀ i < k, (responses (attempt + i)).status = 429) →
    (responses (attempt + k)).ok = false →
    (responses (attempt + k)).status ≠ 429 →
    fetchLoop responses maxRetries initialDelay attempt sleeps fetches =
      ⟨.failure (.requestFailed (responses (attempt + k)).status
          (responses (attempt + k)).statusText),
       sleeps ++ (List.range k).map (fun i => initialDelay * 2 ^ (attempt + i)),
       fetches + (k + 1)⟩ := by
  intro k
  induction k with
  | zero =>
      intro attempt sleeps fetches hle _ hnotok hnot429
      rw [fetchLoop]
      simp only [Nat.add_zero] at hle hnotok hnot429 ⊢
      rw [dif_pos hle]
      simp [hnotok, hnot429]
  | succ k ih =>
      intro attempt sleeps fetches hle h429 hnotok hnot429
      have h0 : (responses attempt).status = 429 := by
        simpa using h429 0 (Nat.succ_pos k)
      have hnotok0 : (responses attempt).ok = false := ok_eq_false_of_status_429 h0
      rw [fetchLoop]
      rw [dif_pos (by omega : attempt ≤ maxRetries)]
      simp only [hnotok0, Bool.false_eq_true, if_false, h0, if_pos rfl]
      rw [dif_pos (by omega : attempt < maxRetries)]
      have harr : attempt + 1 + k = attempt + (k + 1) := by omega
      have hrec := ih (attempt + 1) (sleeps ++ [initialDelay * 2 ^ attempt])
        (fetches + 1) (by omega)
        (fun i hi => by
          have := h429 (i + 1) (by omega)
          simpa [Nat.add_comm, Nat.add_assoc, Nat.add_left_comm] using this)
        (by rw [harr]; exact hnotok)
        (by rw [harr]; exact hnot429)
      rw [hrec]
      have hc : fetches + 1 + (k + 1) = fetches + (k + 1 + 1) := by omega
      rw [harr, sleeps_shift, hc]
      exact if_pos trivial

/-- If the loop fails with `rateLimitExceeded`, every attempt index of
the whole budget observed a 429 response. -/
theorem fetchLoop_rle_all429 (responses : Nat → HttpResponse)
    (maxRetries initialDelay : Nat) :
    ∀ n attempt sleeps fetches, maxRetries - attempt = n →
    (fetchLoop responses maxRetries initialDelay attempt sleeps fetches).outcome =
      .failure .rateLimitExceeded →
    ∀ i, attempt ≤ i → i ≤ maxRetries → (responses i).status = 429 := by
  intro n
  induction n with
  | zero =>
      intro attempt sleeps fetches hsub hout i hlo hhi
      by_cases hle : attempt ≤ maxRetries
      · have hieq : i = attempt := by omega
        rw [fetchLoop, dif_pos hle] at hout
        rw [hieq]
        by_cases hok : (responses attempt).ok = true
        · simp [hok] at hout
        · by_cases h429 : (responses attempt).status = 429
          · exact h429
          · simp [hok, h429] at hout
      · rw [fetchLoop, dif_neg hle] at hout
        simp at hout
  | succ n ih =>
      intro attempt sleeps fetches hsub hout i hlo hhi
      have hlt : attempt < maxRetries := by omega
      rw [fetchLoop, dif_pos (by omega : attempt ≤ maxRetries)] at hout
      by_cases hok : (responses attempt).ok = true
      · simp [hok] at hout
      · by_cases h429 : (responses attempt).status = 429
        · rw [if_neg (by simpa using hok), if_pos h429, dif_pos hlt] at hout
          by_cases hieq : i = attempt
          · rw [hieq]; exact h429
          · exact ih (attempt + 1) (sleeps ++ [initialDelay * 2 ^ attempt])
              (fetches + 1) (by omega) hout i (by omega) hhi
        · simp [hok, h429] at hout

/-- Starting anywhere within the retry budget, the loop never falls
through: its outcome is decided inside the loop body. -/
theorem fetchLoop_ne_fallthrough (responses : Nat → HttpResponse)
    (maxRetries initialDelay : Nat) :
    ∀ n attempt sleeps fetches, maxRetries - attempt = n → attempt ≤ maxRetries →
    (fetchLoop responses maxRetries initialDelay attempt sleeps fetches).outcome ≠
      .fallthrough := by
  intro n
  induction n with
  | zero =>
      intro attempt sleeps fetches hsub hle hout
      rw [fetchLoop, dif_pos hle] at hout
      by_cases hok : (responses attempt).ok = true
      · simp [hok] at hout
      · by_cases h429 : (responses attempt).status = 429
        · rw [if_neg (by simpa using hok), if_pos h429,
            dif_neg (by omega : ¬ attempt < maxRetries)] at hout
          simp at hout
        · simp [hok, h429] at hout
  | succ n ih =>
      intro attempt sleeps fetches hsub hle hout
      rw [fetchLoop, dif_pos hle] at hout
      by_cases hok : (responses attempt).ok = true
      · simp [hok] at hout
      · by_cases h429 : (responses attempt).status = 429
        · rw [if_neg (by simpa using hok), if_pos h429,
            dif_pos (by omega : attempt < maxRetries)] at hout
          exact ih (attempt + 1) (sleeps ++ [initialDelay * 2 ^ attempt])
            (fetches + 1) (by omega) (by omega) hout
        · simp [hok, h429] at hout

/-- C1: for every sequence of HTTP responses consisting of `k ≤ maxRetries`
responses with status 429 followed by a 2xx response, the retry client
(`fetchWithBackoff` / `fetchWithRetry`) returns the successful response,
and the sleeps performed before the retries are exactly
`initialDelay * 2^0, initialDelay * 2^1, ...` in that order. -/
theorem claim_C1_backoff_success (responses : Nat → HttpResponse)
    (maxRetries initialDelay k : Nat)
    (hk : k ≤ maxRetries)
    (h429 : ∀ i < k, (responses i).status = 429)
    (hok : (responses k).ok = true) :
    (fetchWithRetry responses maxRetries initialDelay).outcome =
      .success (responses k) ∧
    (fetchWithRetry responses maxRetries initialDelay).sleeps =
      (List.range k).map (fun i => initialDelay * 2 ^ i) := by
  have h := fetchLoop_success responses maxRetries initialDelay k 0 [] 0
    (by omega) (fun i hi => by simpa using h429 i hi) (by simpa using hok)
  rw [fetchWithRetry, h]
  simp

/-- Witness for C1: two 429 responses then a 200; with `maxRetries = 3`,
`initialDelay = 1000`, the client returns the 200 payload and slept
1000ms then 2000ms. -/
theorem claim_C1_backoff_success_witness :
    (fetchWithRetry
        (fun i => if i < 2 then ⟨429, "Too Many Requests", ""⟩
                  else ⟨200, "OK", "payload"⟩) 3 1000).outcome =
      .success ⟨200, "OK", "payload"⟩ ∧
    (fetchWithRetry
        (fun i => if i < 2 then ⟨429, "Too Many Requests", ""⟩
                  else ⟨200, "OK", "payload"⟩) 3 1000).sleeps = [1000, 2000] := by
  have h := claim_C1_backoff_success
    (fun i => if i < 2 then ⟨429, "Too Many Requests", ""⟩
              else ⟨200, "OK", "payload"⟩) 3 1000 2
    (by omega) (by decide) (by decide)
  exact ⟨h.1, by rw [h.2]; decide⟩

/-- C2: the retry client fails with `rateLimitExceeded` iff it observes
more than `maxRetries` consecutive 429 responses (then making exactly
`maxRetries + 1` request attempts), and a non-2xx non-429 response after
any run of 429s makes it fail with `requestFailed` immediately, with no
further request attempt. -/
theorem claim_C2_rate_limit_iff (responses : Nat → HttpResponse)
    (maxRetries initialDelay : Nat) :
    ((∀ i ≤ maxRetries, (responses i).status = 429) →
      (fetchWithRetry responses maxRetries initialDelay).outcome =
        .failure .rateLimitExceeded ∧
      (fetchWithRetry responses maxRetries initialDelay).fetches =
        maxRetries + 1) ∧
    ((fetchWithRetry responses maxRetries initialDelay).outcome =
        .failure .rateLimitExceeded →
      ∀ i ≤ maxRetries, (responses i).status = 429) ∧
    (∀ k ≤ maxRetries, (∀ i < k, (responses i).status = 429) →
      (responses k).ok = false → (responses k).status ≠ 429 →
      (fetchWithRetry responses maxRetries initialDelay).outcome =
        .failure (.requestFailed (responses k).status (responses k).statusText) ∧
      (fetchWithRetry responses maxRetries initialDelay).fetches = k + 1) := by
  refine ⟨?_, ?_, ?_⟩
  · intro hall
    have h := fetchLoop_exhaust responses maxRetries initialDelay maxRetries 0 [] 0
      (by omega) (fun i hi => by simpa using hall i hi)
    rw [fetchWithRetry, h]
    exact ⟨by simp, by simp⟩
  · intro hout i hle
    exact fetchLoop_rle_all429 responses maxRetries initialDelay
      (maxRetries - 0) 0 [] 0 rfl hout i (Nat.zero_le i) hle
  · intro k hk h429 hnotok hnot429
    have h := fetchLoop_requestFailed responses maxRetries initialDelay k 0 [] 0
      (by omega) (fun i hi => by simpa using h429 i hi)
      (by simpa using hnotok) (by simpa using hnot429)
    rw [fetchWithRetry, h]
    exact ⟨by simp, by simp⟩

/-- Witness for C2: with every response a 429 and `maxRetries = 3` the
client fails with `rateLimitExceeded` after exactly 4 fetches; a 500
response on the first attempt fails with `requestFailed` after exactly
1 fetch. -/
theorem claim_C2_rate_limit_iff_witness :
    (fetchWithRetry (fun _ => ⟨429, "Too Many Requests", ""⟩) 3 1000).outcome =
      .failure .rateLimitExceeded ∧
    (fetchWithRetry (fun _ => ⟨429, "Too Many Requests", ""⟩) 3 1000).fetches = 4 ∧
    (fetchWithRetry (fun _ => ⟨500, "Internal Server Error", ""⟩) 3 1000).outcome =
      .failure (.requestFailed 500 "Internal Server Error") ∧
    (fetchWithRetry (fun _ => ⟨500, "Internal Server Error", ""⟩) 3 1000).fetches = 1 := by
  have h1 := (claim_C2_rate_limit_iff (fun _ => ⟨429, "Too Many Requests", ""⟩)
    3 1000).1 (by decide)
  have h2 := (claim_C2_rate_limit_iff (fun _ => ⟨500, "Internal Server Error", ""⟩)
    3 1000).2.2 0 (by decide) (by decide) (by decide) (by decide)
  exact ⟨h1.1, h1.2, h2.1, h2.2⟩

/-- C10: the trailing `throw lastError || new Error("Request failed")`
after the retry loop is unreachable — entered anywhere within the retry
budget (in particular at attempt 0, for every `maxRetries ≥ 0`), the
loop's outcome is always decided inside the loop body. -/
theorem claim_C10_trailing_throw_unreachable (responses : Nat → HttpResponse)
    (maxRetries initialDelay : Nat) :
    (∀ attempt sleeps fetches, attempt ≤ maxRetries →
      (fetchLoop responses maxRetries initialDelay attempt sleeps fetches).outcome ≠
        .fallthrough) ∧
    (fetchWithRetry responses maxRetries initialDelay).outcome ≠ .fallthrough := by
  constructor
  · intro attempt sleeps fetches hle
    exact fetchLoop_ne_fallthrough responses maxRetries initialDelay
      (maxRetries - attempt) attempt sleeps fetches rfl hle
  · exact fetchLoop_ne_fallthrough responses maxRetries initialDelay
      maxRetries 0 [] 0 rfl (Nat.zero_le _)

/-- Witness for C10: concrete instantiation at `maxRetries = 3` with an
always-429 environment, entering the loop at attempt 2. -/
theorem claim_C10_trailing_throw_unreachable_witness :
    (fetchLoop (fun _ => ⟨429, "Too Many Requests", ""⟩) 3 1000 2 [] 2).outcome ≠
      LoopOutcome.fallthrough :=
  (claim_C10_trailing_throw_unreachable
    (fun _ => ⟨429, "Too Many Requests", ""⟩) 3 1000).1 2 [] 2 (by decide)

/-! ## Yahoo chart data model, session classifier and quote normalizer

Models the Yahoo-variant data structures (`YahooChartResponse`), the
chart-based market-session classifier `determineMarketState`, the
extended-hours price scan `getLatestPriceFromCandles` and the quote
normalizer `getYahooQuote`.  `Date.now()` is passed explicitly as `now`
(epoch seconds). -/

/-- The market session of `StockQuote.marketState`. -/
inductive MarketState where
  | PRE | REGULAR | POST | CLOSED
deriving DecidableEq, Repr

/-- One trading-period boundary pair, in epoch seconds. -/
structure Period where
  start : Int
  «end» : Int
deriving DecidableEq, Repr

/-- Models `meta.currentTradingPeriod`: the optional pre/regular/post boundaries. -/
structure TradingPeriod where
  pre : Option Period
  regular : Option Period
  post : Option Period
deriving DecidableEq, Repr

/-- Models `chart.result[i].meta`. -/
structure ChartMeta where
  symbol : String
  regularMarketPrice : Rat
  previousClose : Rat
  regularMarketTime : Int
  currentTradingPeriod : Option TradingPeriod
deriving DecidableEq, Repr

/-- Models `indicators.quote[j]`: a close series whose entries are present
numbers or JSON `null`s. -/
structure CloseSeries where
  close : List (Option Rat)
deriving DecidableEq, Repr

/-- Models `chart.result[i].indicators`. -/
structure Indicators where
  quote : List CloseSeries
deriving DecidableEq, Repr

/-- One record of `chart.result`. -/
structure ChartResult where
  meta : ChartMeta
  timestamp : Option (List Int)
  indicators : Option Indicators
deriving DecidableEq, Repr

/-- The `chart` field of the provider payload.  `error` is the provider's
explicit error object (opaque here), `result` the optional record array. -/
structure ChartData where
  result : Option (List ChartResult)
  error : Option String
deriving DecidableEq, Repr

/-- The raw Yahoo chart payload. -/
structure YahooChartResponse where
  chart : ChartData
deriving DecidableEq, Repr

/-- The normalized quote record produced by `getYahooQuote`. -/
structure StockQuote where
  symbol : String
  price : Rat
  previousClose : Rat
  change : Rat
  changePercent : Rat
  marketState : MarketState
deriving DecidableEq, Repr

/-- Errors of the quote normalizer: the provider reported an explicit
error object, or the payload contained no usable result record. -/
inductive QuoteError where
  | providerError (e : String)
  | noData
deriving DecidableEq, Repr

/-- Models `p && now >= p.start && now < p.end` for an optional boundary pair. -/
def inPeriod (now : Int) (p : Option Period) : Bool :=
  match p with
  | some q => q.start ≤ now && now < q.«end»
  | none => false

/-- Models `determineMarketState`: classify `now` against the trading-period
boundaries, testing PRE, REGULAR, POST in order; CLOSED otherwise or when
the boundary data is missing. -/
def determineMarketState (now : Int) (meta : ChartMeta) : MarketState :=
  match meta.currentTradingPeriod with
  | none => .CLOSED
  | some tp =>
    if inPeriod now tp.pre then .PRE
    else if inPeriod now tp.regular then .REGULAR
    else if inPeriod now tp.post then .POST
    else .CLOSED

/-- The scan loop of `getLatestPriceFromCandles`:

    for (let i = timestamps.length - 1; i >= 0; i--) {
        if (quotes.close[i] !== null) { return quotes.close[i]; }
    }
    return null;

`close.get? i = some (some v)` is a present number (returned),
`some none` is a JSON `null` (skipped), and `none` is JavaScript
`undefined` (an out-of-range index: `undefined !== null` holds, so the
loop returns `undefined`, which the caller's `??` treats like `null`). -/
def scanClose (close : List (Option Rat)) : Nat → Option Rat
  | 0 => none
  | Nat.succ i =>
    match close[i]? with
    | some (some v) => some v
    | some none => scanClose close i
    | none => none

/-- Models `getLatestPriceFromCandles`: latest non-null close sample, scanning
from index `timestamps.length - 1` downward; `null` when the timestamp
array or the close series is absent. -/
def getLatestPriceFromCandles (result : ChartResult) : Option Rat :=
  match result.timestamp, result.indicators.bind (fun ind => ind.quote.head?) with
  | some timestamps, some quotes => scanClose quotes.close timestamps.length
  | _, _ => none

/-- Models `getYahooQuote`, from the parsed payload onward: check the provider
error object, extract the first result record, classify the session,
select the price (candle scan during extended hours, regular price
otherwise) and recompute change and changePercent. -/
def getYahooQuote (now : Int) (data : YahooChartResponse) :
    Except QuoteError StockQuote :=
  match data.chart.error with
  | some e => .error (.providerError e)
  | none =>
    match data.chart.result.bind List.head? with
    | none => .error .noData
    | some result =>
      let meta := result.meta
      let marketState := determineMarketState now meta
      let price :=
        if marketState = .PRE ∨ marketState = .POST then
          (getLatestPriceFromCandles result).getD meta.regularMarketPrice
        else
          meta.regularMarketPrice
      let previousClose := meta.previousClose
      let change := price - previousClose
      let changePercent := (change / previousClose) * 100
      .ok { symbol := meta.symbol, price := price, previousClose := previousClose,
            change := change, changePercent := changePercent,
            marketState := marketState }

/-- The price of a successfully normalized quote. -/
def quotePrice (e : Except QuoteError StockQuote) : Option Rat :=
  match e with
  | .ok q => some q.price
  | .error _ => none

/-- Modelled from the spec's wording for comparison: "the most recent
non-missing price sample … scan from the newest sample backward, skip
missing/null entries". -/
def lastNonNullEntry (close : List (Option Rat)) : Option Rat :=
  close.reverse.findSome? (fun x => x)

/-- The backward scan over the first `n` entries computes the last
non-null entry of the corresponding prefix. -/
theorem scanClose_eq_lastNonNull (close : List (Option Rat)) :
    ∀ n, n ≤ close.length →
    scanClose close n = lastNonNullEntry (close.take n) := by
  intro n
  induction n with
  | zero => intro _; simp [scanClose, lastNonNullEntry]
  | succ n ih =>
      intro hle
      have hn : n < close.length := by omega
      have he : close[n]? = some close[n] := List.getElem?_eq_getElem hn
      have htake : close.take (n + 1) = close.take n ++ [close[n]] := by
        rw [List.take_succ, he]
        rfl
      rw [scanClose, he, lastNonNullEntry, htake, List.reverse_append,
        List.reverse_singleton, List.singleton_append, List.findSome?_cons]
      cases hv : close[n] with
      | some v => rfl
      | none => exact ih (by omega)

/-- C3: in a successful normalization whose classified session is PRE or
POST, the price is the last non-null entry of the (parallel) intraday
close series scanning from the newest sample backward, falling back to
`meta.regularMarketPrice` when every sample is null or the
series/timestamps are absent; in a REGULAR or CLOSED session the price is
`meta.regularMarketPrice`. -/
theorem claim_C3_extended_hours_price (now : Int) (data : YahooChartResponse)
    (r : ChartResult)
    (herr : data.chart.error = none)
    (hres : data.chart.result.bind List.head? = some r) :
    ((determineMarketState now r.meta = .PRE ∨
      determineMarketState now r.meta = .POST) →
      (∀ ts q, r.timestamp = some ts →
        r.indicators.bind (fun ind => ind.quote.head?) = some q →
        ts.length = q.close.length →
        quotePrice (getYahooQuote now data) =
          some ((lastNonNullEntry q.close).getD r.meta.regularMarketPrice)) ∧
      ((r.timestamp = none ∨
        r.indicators.bind (fun ind => ind.quote.head?) = none) →
        quotePrice (getYahooQuote now data) = some r.meta.regularMarketPrice)) ∧
    ((determineMarketState now r.meta = .REGULAR ∨
      determineMarketState now r.meta = .CLOSED) →
      quotePrice (getYahooQuote now data) = some r.meta.regularMarketPrice) := by
  constructor
  · intro hext
    have hcond : (determineMarketState now r.meta = .PRE ∨
        determineMarketState now r.meta = .POST) = True := by
      simp [hext]
    constructor
    · intro ts q hts hq hlen
      have hcandles : getLatestPriceFromCandles r = lastNonNullEntry q.close := by
        rw [getLatestPriceFromCandles, hts, hq]
        show scanClose q.close ts.length = _
        rw [hlen, scanClose_eq_lastNonNull q.close q.close.length (Nat.le_refl _),
          List.take_length]
      simp only [getYahooQuote, herr, hres, quotePrice, hcond, if_true, hcandles]
    · intro habs
      have hcandles : getLatestPriceFromCandles r = none := by
        rw [getLatestPriceFromCandles]
        rcases habs with h | h
        · rw [h]
        · rw [h]
          cases ht : r.timestamp <;> rfl
      simp only [getYahooQuote, herr, hres, quotePrice, hcond, if_true, hcandles,
        Option.getD_none]
  · intro hreg
    have hcond : (determineMarketState now r.meta = .PRE ∨
        determineMarketState now r.meta = .POST) = False := by
      rcases hreg with h | h <;> simp [h]
    simp only [getYahooQuote, herr, hres, quotePrice, hcond, if_false]

/-- Witness for C3: a PRE-session payload with close series
`[100, null, 102, null]` normalizes to price 102; the same payload in a
CLOSED session (now outside all boundaries) normalizes to the regular
price 500. -/
theorem claim_C3_extended_hours_price_witness :
    quotePrice (getYahooQuote 50
      ⟨⟨some [⟨⟨"AAPL", 500, 400, 0,
          some ⟨some ⟨0, 100⟩, some ⟨100, 200⟩, some ⟨200, 300⟩⟩⟩,
        some [1, 2, 3, 4],
        some ⟨[⟨[some 100, none, some 102, none]⟩]⟩⟩], none⟩⟩) = some 102 ∧
    quotePrice (getYahooQuote 1000
      ⟨⟨some [⟨⟨"AAPL", 500, 400, 0,
          some ⟨some ⟨0, 100⟩, some ⟨100, 200⟩, some ⟨200, 300⟩⟩⟩,
        some [1, 2, 3, 4],
        some ⟨[⟨[some 100, none, some 102, none]⟩]⟩⟩], none⟩⟩) = some 500 := by
  constructor
  · have h := ((claim_C3_extended_hours_price 50
      ⟨⟨some [⟨⟨"AAPL", 500, 400, 0,
          some ⟨some ⟨0, 100⟩, some ⟨100, 200⟩, some ⟨200, 300⟩⟩⟩,
        some [1, 2, 3, 4],
        some ⟨[⟨[some 100, none, some 102, none]⟩]⟩⟩], none⟩⟩
      _ rfl rfl).1 (Or.inl (by decide))).1
      [1, 2, 3, 4] ⟨[some 100, none, some 102, none]⟩ rfl rfl (by decide)
    rw [h]; decide
  · have h := (claim_C3_extended_hours_price 1000
      ⟨⟨some [⟨⟨"AAPL", 500, 400, 0,
          some ⟨some ⟨0, 100⟩, some ⟨100, 200⟩, some ⟨200, 300⟩⟩⟩,
        some [1, 2, 3, 4],
        some ⟨[⟨[some 100, none, some 102, none]⟩]⟩⟩], none⟩⟩
      _ rfl rfl).2 (Or.inr (by decide))
    rw [h]

/-- An optional boundary pair contains `now` (half-open interval). -/
def periodContains (now : Int) (p : Option Period) : Prop :=
  ∃ q, p = some q ∧ q.start ≤ now ∧ now < q.«end»

/-- The boolean guard of `determineMarketState` decides `periodContains`. -/
theorem inPeriod_iff (now : Int) (p : Option Period) :
    inPeriod now p = true ↔ periodContains now p := by
  cases p <;> simp [inPeriod, periodContains]

/-- C4: the chart-based session classifier is total (always one of the
four sessions), returns CLOSED when the boundary data is missing, and
otherwise tests the half-open intervals in the fixed priority order PRE,
REGULAR, POST, returning the first containing `now` and CLOSED when none
does. -/
theorem claim_C4_session_classifier (now : Int) (meta : ChartMeta) :
    (determineMarketState now meta = .PRE ∨
     determineMarketState now meta = .REGULAR ∨
     determineMarketState now meta = .POST ∨
     determineMarketState now meta = .CLOSED) ∧
    (meta.currentTradingPeriod = none → determineMarketState now meta = .CLOSED) ∧
    (∀ tp, meta.currentTradingPeriod = some tp →
      ((determineMarketState now meta = .PRE ↔ periodContains now tp.pre) ∧
       (determineMarketState now meta = .REGULAR ↔
         (¬ periodContains now tp.pre ∧ periodContains now tp.regular)) ∧
       (determineMarketState now meta = .POST ↔
         (¬ periodContains now tp.pre ∧ ¬ periodContains now tp.regular ∧
          periodContains now tp.post)) ∧
       (determineMarketState now meta = .CLOSED ↔
         (¬ periodContains now tp.pre ∧ ¬ periodContains now tp.regular ∧
          ¬ periodContains now tp.post)))) := by
  refine ⟨?_, ?_, ?_⟩
  · cases h : determineMarketState now meta <;> simp
  · intro h
    simp [determineMarketState, h]
  · intro tp htp
    simp only [determineMarketState, htp]
    by_cases h1 : periodContains now tp.pre
    · have b1 : inPeriod now tp.pre = true := (inPeriod_iff now tp.pre).mpr h1
      simp [b1, h1]
    · have b1 : inPeriod now tp.pre = false := by
        rw [Bool.eq_false_iff]
        exact fun hh => h1 ((inPeriod_iff now tp.pre).mp hh)
      by_cases h2 : periodContains now tp.regular
      · have b2 : inPeriod now tp.regular = true := (inPeriod_iff now tp.regular).mpr h2
        simp [b1, b2, h1, h2]
      · have b2 : inPeriod now tp.regular = false := by
          rw [Bool.eq_false_iff]
          exact fun hh => h2 ((inPeriod_iff now tp.regular).mp hh)
        by_cases h3 : periodContains now tp.post
        · have b3 : inPeriod now tp.post = true := (inPeriod_iff now tp.post).mpr h3
          simp [b1, b2, b3, h1, h2, h3]
        · have b3 : inPeriod now tp.post = false := by
            rw [Bool.eq_false_iff]
            exact fun hh => h3 ((inPeriod_iff now tp.post).mp hh)
          simp [b1, b2, b3, h1, h2, h3]

/-- Witness for C4: missing boundary data classifies as CLOSED, and a
`now` inside the PRE boundaries classifies as PRE. -/
theorem claim_C4_session_classifier_witness :
    determineMarketState 50 ⟨"A", 0, 0, 0, none⟩ = .CLOSED ∧
    determineMarketState 50 ⟨"A", 0, 0, 0,
      some ⟨some ⟨0, 100⟩, some ⟨100, 200⟩, some ⟨200, 300⟩⟩⟩ = .PRE := by
  constructor
  · exact (claim_C4_session_classifier 50 ⟨"A", 0, 0, 0, none⟩).2.1 rfl
  · exact ((claim_C4_session_classifier 50 ⟨"A", 0, 0, 0,
      some ⟨some ⟨0, 100⟩, some ⟨100, 200⟩, some ⟨200, 300⟩⟩⟩).2.2
      ⟨some ⟨0, 100⟩, some ⟨100, 200⟩, some ⟨200, 300⟩⟩ rfl).1.mpr
      ⟨⟨0, 100⟩, rfl, by decide, by decide⟩

/-- C7: the normalizer fails with `providerError` exactly when the
payload carries an explicit error object, fails with `noData` exactly
when the payload has no usable result record (and no error object), and
in either failure case produces no normalized quote. -/
theorem claim_C7_normalizer_errors (now : Int) (data : YahooChartResponse) :
    ((∃ e, getYahooQuote now data = .error (.providerError e)) ↔
      data.chart.error ≠ none) ∧
    (getYahooQuote now data = .error .noData ↔
      (data.chart.error = none ∧ data.chart.result.bind List.head? = none)) ∧
    (∀ err, getYahooQuote now data = .error err →
      ∀ q, getYahooQuote now data ≠ .ok q) := by
  refine ⟨?_, ?_, ?_⟩
  · cases herr : data.chart.error with
    | some e => simp [getYahooQuote, herr]
    | none =>
        cases hres : data.chart.result.bind List.head? with
        | none => simp [getYahooQuote, herr, hres]
        | some r => simp [getYahooQuote, herr, hres]
  · cases herr : data.chart.error with
    | some e => simp [getYahooQuote, herr]
    | none =>
        cases hres : data.chart.result.bind List.head? with
        | none => simp [getYahooQuote, herr, hres]
        | some r => simp [getYahooQuote, herr, hres]
  · intro err herr2 q hok
    rw [herr2] at hok
    exact Except.noConfusion hok

/-- Witness for C7: an explicit provider error object yields
`providerError`; an empty result array with no error object yields
`noData`. -/
theorem claim_C7_normalizer_errors_witness :
    (∃ e, getYahooQuote 0 ⟨⟨none, some "Invalid symbol"⟩⟩ =
      .error (.providerError e)) ∧
    getYahooQuote 0 ⟨⟨some [], none⟩⟩ = .error .noData := by
  constructor
  · exact (claim_C7_normalizer_errors 0 ⟨⟨none, some "Invalid symbol"⟩⟩).1.mpr
      (by simp)
  · exact (claim_C7_normalizer_errors 0 ⟨⟨some [], none⟩⟩).2.1.mpr ⟨rfl, rfl⟩

/-! ## Renderer and display-field selection

Models `generateStockImage` (identical in both variants) and the
success path of `updateDisplay`: the Yahoo variant displays the fields of
the normalized `StockQuote`, the Finnhub variant displays the raw
provider fields `c` / `d` / `dp`.  The SVG text/base64 encoding is
presentation plumbing; the rendered frame is modelled as the record of
the interpolated field values. -/

/-- Models `Number.prototype.toFixed(2)`: two-decimal rounding (half away from
zero) rendered as a string.  `n` is `|x| * 100` rounded half-up, computed
on the numerator and denominator directly. -/
def toFixed2 (x : Rat) : String :=
  let neg := x.num < 0
  let m : Nat := x.num.natAbs
  let n : Nat := (m * 200 + x.den) / (2 * x.den)
  (if neg then "-" else "") ++ toString (n / 100) ++ "." ++
    (if n % 100 < 10 then "0" else "") ++ toString (n % 100)

/-- The up arrow glyph of `updateDisplay`. -/
def upArrow : String := "▲"

/-- The down arrow glyph of `updateDisplay`. -/
def downArrow : String := "▼"

/-- The positive color of `generateStockImage`. -/
def positiveColor : String := "#00ff00"

/-- The negative color of `generateStockImage`. -/
def negativeColor : String := "#ff4444"

/-- The rendered frame: the exact values interpolated into the fixed
SVG layout by `generateStockImage`. -/
structure StockImage where
  symbol : String
  marketEmoji : String
  arrow : String
  price : String
  change : String
  changePercent : String
  arrowColor : String
  changeColor : String
deriving DecidableEq, Repr

/-- Models `generateStockImage`: compose the frame, with arrow and change-line
colors selected by `isPositive`. -/
def generateStockImage (symbol marketEmoji arrow price change changePercent : String)
    (isPositive : Bool) : StockImage :=
  { symbol := symbol, marketEmoji := marketEmoji, arrow := arrow,
    price := price, change := change, changePercent := changePercent,
    arrowColor := if isPositive then positiveColor else negativeColor,
    changeColor := if isPositive then positiveColor else negativeColor }

/-- Models `getMarketEmoji` (Yahoo variant). -/
def getMarketEmoji : MarketState → String
  | .PRE => "🥐"
  | .REGULAR => "☀️"
  | .POST => "🌗"
  | .CLOSED => "🌙"

/-- The success path of `updateDisplay` (Yahoo variant): select arrow,
formatted fields and sign from the normalized quote and compose the
frame. -/
def renderQuote (displaySymbol : String) (q : StockQuote) : StockImage :=
  generateStockImage displaySymbol (getMarketEmoji q.marketState)
    (if 0 ≤ q.change then upArrow else downArrow)
    (toFixed2 q.price) (toFixed2 q.change) (toFixed2 q.changePercent)
    (decide (0 ≤ q.change))

/-- The Finnhub `/quote` response record. -/
structure FinnhubQuote where
  c : Rat
  d : Rat
  dp : Rat
  h : Rat
  l : Rat
  o : Rat
  pc : Rat
  t : Int
deriving DecidableEq, Repr

/-- The Finnhub `/stock/market-status` response record (relevant fields). -/
structure MarketStatus where
  isOpen : Bool
  session : String
deriving DecidableEq, Repr

/-- Models `getMarketEmoji` (Finnhub variant). -/
def getMarketEmojiA (status : MarketStatus) : String :=
  if !status.isOpen then "🌙"
  else if status.session = "pre-market" then "🥐"
  else if status.session = "regular" then "☀️"
  else if status.session = "post-market" then "🌗"
  else "📊"

/-- The success path of `updateDisplay` (Finnhub variant): the displayed
price, change and changePercent are `quote.c`, `quote.d` and `quote.dp`
as supplied by the provider. -/
def updateDisplayFieldsA (displaySymbol : String) (q : FinnhubQuote)
    (status : MarketStatus) : StockImage :=
  generateStockImage displaySymbol (getMarketEmojiA status)
    (if 0 ≤ q.d then upArrow else downArrow)
    (toFixed2 q.c) (toFixed2 q.d) (toFixed2 q.dp)
    (decide (0 ≤ q.d))

/-- A nonnegative change renders as up arrow in the positive color. -/
theorem renderQuote_pos (sym : String) (q : StockQuote) (h : 0 ≤ q.change) :
    (renderQuote sym q).arrow = upArrow ∧
    (renderQuote sym q).arrowColor = positiveColor ∧
    (renderQuote sym q).changeColor = positiveColor := by
  simp [renderQuote, generateStockImage, h]

/-- A negative change renders as down arrow in the negative color. -/
theorem renderQuote_neg (sym : String) (q : StockQuote) (h : ¬ 0 ≤ q.change) :
    (renderQuote sym q).arrow = downArrow ∧
    (renderQuote sym q).arrowColor = negativeColor ∧
    (renderQuote sym q).changeColor = negativeColor := by
  simp [renderQuote, generateStockImage, h]

/-- C8: the rendered frame shows the up arrow with both the arrow and the
bottom change line in the positive color iff `change ≥ 0`, and the down
arrow with both in the negative color otherwise; zero change renders as
positive/up. -/
theorem claim_C8_arrow_color (sym : String) (q : StockQuote) :
    (((renderQuote sym q).arrow = upArrow ∧
      (renderQuote sym q).arrowColor = positiveColor ∧
      (renderQuote sym q).changeColor = positiveColor) ↔ 0 ≤ q.change) ∧
    (q.change < 0 →
      (renderQuote sym q).arrow = downArrow ∧
      (renderQuote sym q).arrowColor = negativeColor ∧
      (renderQuote sym q).changeColor = negativeColor) ∧
    (q.change = 0 →
      (renderQuote sym q).arrow = upArrow ∧
      (renderQuote sym q).arrowColor = positiveColor ∧
      (renderQuote sym q).changeColor = positiveColor) := by
  refine ⟨⟨fun hcl => ?_, fun h => renderQuote_pos sym q h⟩,
    fun hlt => renderQuote_neg sym q (not_le.mpr hlt),
    fun heq => renderQuote_pos sym q (le_of_eq heq.symm)⟩
  by_contra h
  have hng := renderQuote_neg sym q h
  have : upArrow = downArrow := hcl.1.symm.trans hng.1
  exact absurd this (by decide)

/-- Witness for C8: a negative change renders down/red, a zero change
renders up/green. -/
theorem claim_C8_arrow_color_witness :
    ((renderQuote "MSFT" ⟨"MSFT", 423, 480, -57, -12, .REGULAR⟩).arrow = downArrow ∧
     (renderQuote "MSFT" ⟨"MSFT", 423, 480, -57, -12, .REGULAR⟩).arrowColor =
       negativeColor ∧
     (renderQuote "MSFT" ⟨"MSFT", 423, 480, -57, -12, .REGULAR⟩).changeColor =
       negativeColor) ∧
    ((renderQuote "MSFT" ⟨"MSFT", 480, 480, 0, 0, .REGULAR⟩).arrow = upArrow ∧
     (renderQuote "MSFT" ⟨"MSFT", 480, 480, 0, 0, .REGULAR⟩).arrowColor =
       positiveColor ∧
     (renderQuote "MSFT" ⟨"MSFT", 480, 480, 0, 0, .REGULAR⟩).changeColor =
       positiveColor) :=
  ⟨(claim_C8_arrow_color "MSFT" ⟨"MSFT", 423, 480, -57, -12, .REGULAR⟩).2.1
      (by norm_num),
   (claim_C8_arrow_color "MSFT" ⟨"MSFT", 480, 480, 0, 0, .REGULAR⟩).2.2 rfl⟩

/-- Counterexample for C5: in the Finnhub variant, `updateDisplay`
displays the provider-supplied change `quote.d`, not
`price - previousClose` — here `c = 10`, `pc = 5`, but `d = 7`, so the
displayed change line is "7.00" rather than "5.00". -/
theorem claim_C5_change_recomputed_counterexample :
    (updateDisplayFieldsA "MSFT" ⟨10, 7, 3, 11, 9, 10, 5, 0⟩
      ⟨true, "regular"⟩).change ≠ toFixed2 ((10 : Rat) - 5) := by
  have h105 : (10 : Rat) - 5 = 5 := by norm_num
  rw [h105]
  decide

/-- C5 (amended): in the Yahoo pipeline every successful normalization
recomputes `change = price - previousClose` and
`changePercent = change / previousClose * 100`, and the rendered change
line is formatted from the recomputed value; in the Finnhub pipeline the
displayed change and changePercent are the provider-supplied `d` and `dp`
fields taken as-is. -/
theorem claim_C5_change_recomputed_amended (now : Int)
    (data : YahooChartResponse) (q : StockQuote) (sym : String)
    (fq : FinnhubQuote) (st : MarketStatus) :
    (getYahooQuote now data = .ok q →
      (q.change = q.price - q.previousClose ∧
       q.changePercent = (q.price - q.previousClose) / q.previousClose * 100 ∧
       (renderQuote sym q).change = toFixed2 (q.price - q.previousClose))) ∧
    ((updateDisplayFieldsA sym fq st).change = toFixed2 fq.d ∧
     (updateDisplayFieldsA sym fq st).changePercent = toFixed2 fq.dp) := by
  constructor
  · intro h
    rcases hE : data.chart.error with _ | e
    · rcases hR : data.chart.result.bind List.head? with _ | r
      · simp only [getYahooQuote, hE, hR] at h
        exact Except.noConfusion h
      · simp only [getYahooQuote, hE, hR] at h
        cases h
        exact ⟨rfl, rfl, rfl⟩
    · simp only [getYahooQuote, hE] at h
      exact Except.noConfusion h
  · exact ⟨rfl, rfl⟩

/-- Witness for C5 (amended): a concrete successful Yahoo normalization
has `change = price - previousClose`, and a concrete Finnhub display
shows the provider's `d`. -/
theorem claim_C5_change_recomputed_amended_witness :
    getYahooQuote 0 ⟨⟨some [⟨⟨"MSFT", 500, 400, 0, none⟩, none, none⟩], none⟩⟩ =
      .ok ⟨"MSFT", 500, 400, 100, 25, .CLOSED⟩ ∧
    (⟨"MSFT", 500, 400, 100, 25, .CLOSED⟩ : StockQuote).change =
      (500 : Rat) - 400 ∧
    (updateDisplayFieldsA "MSFT" ⟨10, 7, 3, 11, 9, 10, 5, 0⟩
      ⟨true, "regular"⟩).change = toFixed2 7 := by
  have hok : getYahooQuote 0
      ⟨⟨some [⟨⟨"MSFT", 500, 400, 0, none⟩, none, none⟩], none⟩⟩ =
      .ok ⟨"MSFT", 500, 400, 100, 25, .CLOSED⟩ := by
    simp [getYahooQuote, determineMarketState]
    norm_num
  have h := claim_C5_change_recomputed_amended 0
    ⟨⟨some [⟨⟨"MSFT", 500, 400, 0, none⟩, none, none⟩], none⟩⟩
    ⟨"MSFT", 500, 400, 100, 25, .CLOSED⟩ "MSFT"
    ⟨10, 7, 3, 11, 9, 10, 5, 0⟩ ⟨true, "regular"⟩
  exact ⟨hok, (h.1 hok).1, h.2.1⟩

/-! ## Refresh scheduler

Models the per-instance timer bookkeeping of `StockQuoteAction`:
`refreshIntervals` is the `Map` from action identifier to timer handle,
`activeTimers` the set of timers that have been created by `setInterval`
and not yet cancelled by `clearInterval` (reified as a list, each timer
remembering its owner and interval), and `nextTid` the next fresh timer
handle.  Events are the host lifecycle callbacks. -/

/-- The per-instance settings object. -/
structure Settings where
  symbol : Option String
  apiKey : Option String
  refreshInterval : Option String
deriving DecidableEq, Repr

/-- JavaScript `parseInt(s, 10)`: skip leading whitespace, optional sign,
then the longest prefix of decimal digits; `NaN` (here `none`) when that
prefix is empty. -/
def parseDigits (cs : List Char) : Option Nat :=
  let ds := cs.takeWhile Char.isDigit
  if ds.isEmpty then none
  else some (ds.foldl (fun acc c => acc * 10 + (c.toNat - 48)) 0)

/-- See `parseDigits`. -/
def parseIntJs (s : String) : Option Int :=
  let cs := s.toList.dropWhile
    (fun c => c = ' ' || c = '\t' || c = '\n' || c = '\r')
  match cs with
  | '-' :: rest => (parseDigits rest).map (fun n => -(n : Int))
  | '+' :: rest => (parseDigits rest).map (fun n => (n : Int))
  | rest => (parseDigits rest).map (fun n => (n : Int))

/-- Models `parseInt(settings.refreshInterval || "60000", 10)`: the string
`"60000"` is substituted when the setting is absent or empty (falsy);
the result is the timer interval in ms, `none` standing for `NaN`. -/
def refreshMsOf (settings : Settings) : Option Int :=
  parseIntJs (match settings.refreshInterval with
    | none => "60000"
    | some s => if s = "" then "60000" else s)

/-- A live timer: its `setInterval` handle, the owning action identifier
and the interval it was registered with. -/
structure Timer where
  tid : Nat
  owner : String
  intervalMs : Option Int
deriving DecidableEq, Repr

/-- The scheduler state. -/
structure SchedState where
  refreshIntervals : String → Option Nat
  activeTimers : List Timer
  nextTid : Nat

/-- The initial state: empty map, no live timer. -/
def schedInit : SchedState := ⟨fun _ => none, [], 0⟩

/-- Models `clearInterval`: the timer with the given handle stops being live. -/
def clearTimer (timers : List Timer) (tid : Nat) : List Timer :=
  timers.filter (fun t => t.tid ≠ tid)

/-- Models `startRefreshInterval`: clear any existing interval registered for
the action, then register a fresh timer with the configured interval. -/
def startRefreshInterval (s : SchedState) (actionId : String)
    (settings : Settings) : SchedState :=
  let timers :=
    match s.refreshIntervals actionId with
    | some t => clearTimer s.activeTimers t
    | none => s.activeTimers
  { refreshIntervals := fun k =>
      if k = actionId then some s.nextTid else s.refreshIntervals k,
    activeTimers := timers ++ [⟨s.nextTid, actionId, refreshMsOf settings⟩],
    nextTid := s.nextTid + 1 }

/-- Models `onWillDisappear`: cancel and remove the action's timer, if any. -/
def onWillDisappear (s : SchedState) (actionId : String) : SchedState :=
  match s.refreshIntervals actionId with
  | some t =>
    { refreshIntervals := fun k =>
        if k = actionId then none else s.refreshIntervals k,
      activeTimers := clearTimer s.activeTimers t,
      nextTid := s.nextTid }
  | none => s

/-- The number of live timers owned by an action identifier. -/
def countActiveFor (s : SchedState) (actionId : String) : Nat :=
  (s.activeTimers.filter (fun t => t.owner = actionId)).length

/-- A timer fire invokes the pipeline only while its handle is live. -/
def timerCanFire (s : SchedState) (tid : Nat) : Bool :=
  s.activeTimers.any (fun t => t.tid = tid)

/-- The host lifecycle events handled by the scheduler. -/
inductive SchedEvent where
  | willAppear (actionId : String) (settings : Settings)
  | didReceiveSettings (actionId : String) (settings : Settings)
  | willDisappear (actionId : String)

/-- One event-handler invocation.  `onWillAppear` and
`onDidReceiveSettings` both call `startRefreshInterval`. -/
def step (s : SchedState) : SchedEvent → SchedState
  | .willAppear actionId settings => startRefreshInterval s actionId settings
  | .didReceiveSettings actionId settings => startRefreshInterval s actionId settings
  | .willDisappear actionId => onWillDisappear s actionId

/-- The state after a sequence of events from the initial state. -/
def run (evs : List SchedEvent) : SchedState :=
  evs.foldl step schedInit

/-- The scheduler invariant: the map points every live timer's owner at
that timer's handle, and no two live timers share an owner. -/
def SchedInv (s : SchedState) : Prop :=
  (∀ t ∈ s.activeTimers, s.refreshIntervals t.owner = some t.tid) ∧
  s.activeTimers.Pairwise (fun a b => a.owner ≠ b.owner)

/-- Membership in `clearTimer`. -/
theorem mem_clearTimer {l : List Timer} {tid : Nat} {t : Timer} :
    t ∈ clearTimer l tid ↔ t ∈ l ∧ t.tid ≠ tid := by
  simp [clearTimer]

/-- After clearing the handle the map holds for an action, no surviving
live timer is owned by that action. -/
theorem survivor_not_owner_some {s : SchedState}
    (hA : ∀ t ∈ s.activeTimers, s.refreshIntervals t.owner = some t.tid)
    {actionId : String} {told : Nat}
    (hsome : s.refreshIntervals actionId = some told) :
    ∀ t ∈ clearTimer s.activeTimers told, t.owner ≠ actionId := by
  intro t ht heq
  rw [mem_clearTimer] at ht
  have hmap := hA t ht.1
  rw [heq, hsome] at hmap
  exact ht.2 (Option.some.inj hmap).symm

/-- If the map holds nothing for an action, no live timer is owned by
that action. -/
theorem not_owner_none {s : SchedState}
    (hA : ∀ t ∈ s.activeTimers, s.refreshIntervals t.owner = some t.tid)
    {actionId : String} (hnone : s.refreshIntervals actionId = none) :
    ∀ t ∈ s.activeTimers, t.owner ≠ actionId := by
  intro t ht heq
  have hmap := hA t ht
  rw [heq, hnone] at hmap
  exact Option.noConfusion hmap

/-- A list with no timer owned by the action filters to nothing. -/
theorem filter_owner_eq_nil {l : List Timer} {actionId : String}
    (h : ∀ t ∈ l, t.owner ≠ actionId) :
    l.filter (fun t => t.owner = actionId) = [] := by
  rw [List.eq_nil_iff_forall_not_mem]
  intro t ht
  rw [List.mem_filter] at ht
  exact h t ht.1 (by simpa using ht.2)

/-- On a list whose owners are pairwise distinct, at most one timer is
owned by any action. -/
theorem filter_owner_length_le_one (l : List Timer)
    (hP : l.Pairwise (fun a b => a.owner ≠ b.owner)) (actionId : String) :
    (l.filter (fun t => t.owner = actionId)).length ≤ 1 := by
  induction l with
  | nil => simp
  | cons a l ih =>
      rw [List.pairwise_cons] at hP
      by_cases ha : a.owner = actionId
      · rw [List.filter_cons_of_pos (by simpa using ha)]
        have hnil : l.filter (fun t => t.owner = actionId) = [] := by
          refine filter_owner_eq_nil (fun t ht heq => ?_)
          exact hP.1 t ht (ha.trans heq.symm)
        rw [hnil]
        simp
      · rw [List.filter_cons_of_neg (by simpa using ha)]
        exact ih hP.2

/-- The invariant holds initially. -/
theorem schedInv_init : SchedInv schedInit := by
  constructor
  · intro t ht
    simp [schedInit] at ht
  · simp [schedInit]

/-- Models `startRefreshInterval` preserves the invariant. -/
theorem schedInv_start (s : SchedState) (h : SchedInv s) (actionId : String)
    (st : Settings) : SchedInv (startRefreshInterval s actionId st) := by
  obtain ⟨hA, hP⟩ := h
  cases hsome : s.refreshIntervals actionId with
  | some told =>
      have hsurv := survivor_not_owner_some hA hsome
      constructor
      · intro t ht
        simp only [startRefreshInterval, hsome] at ht ⊢
        rcases List.mem_append.mp ht with hin | hnew
        · rw [if_neg (hsurv t hin)]
          exact hA t (mem_clearTimer.mp hin).1
        · have heq : t = ⟨s.nextTid, actionId, refreshMsOf st⟩ := by simpa using hnew
          subst heq
          simp
      · simp only [startRefreshInterval, hsome]
        rw [List.pairwise_append]
        refine ⟨List.Pairwise.sublist (List.filter_sublist _) hP, by simp, ?_⟩
        intro a ha b hb
        have heq : b = ⟨s.nextTid, actionId, refreshMsOf st⟩ := by simpa using hb
        subst heq
        exact hsurv a ha
  | none =>
      have hsurv := not_owner_none hA hsome
      constructor
      · intro t ht
        simp only [startRefreshInterval, hsome] at ht ⊢
        rcases List.mem_append.mp ht with hin | hnew
        · rw [if_neg (hsurv t hin)]
          exact hA t hin
        · have heq : t = ⟨s.nextTid, actionId, refreshMsOf st⟩ := by simpa using hnew
          subst heq
          simp
      · simp only [startRefreshInterval, hsome]
        rw [List.pairwise_append]
        refine ⟨hP, by simp, ?_⟩
        intro a ha b hb
        have heq : b = ⟨s.nextTid, actionId, refreshMsOf st⟩ := by simpa using hb
        subst heq
        exact hsurv a ha

/-- Models `onWillDisappear` preserves the invariant. -/
theorem schedInv_disappear (s : SchedState) (h : SchedInv s)
    (actionId : String) : SchedInv (onWillDisappear s actionId) := by
  obtain ⟨hA, hP⟩ := h
  cases hsome : s.refreshIntervals actionId with
  | none =>
      simp only [onWillDisappear, hsome]
      exact ⟨hA, hP⟩
  | some told =>
      constructor
      · intro t ht
        simp only [onWillDisappear, hsome] at ht ⊢
        have hne := survivor_not_owner_some hA hsome t ht
        rw [if_neg hne]
        exact hA t (mem_clearTimer.mp ht).1
      · simp only [onWillDisappear, hsome]
        exact List.Pairwise.sublist (List.filter_sublist _) hP

/-- Every event handler preserves the invariant. -/
theorem schedInv_step (s : SchedState) (h : SchedInv s) (ev : SchedEvent) :
    SchedInv (step s ev) := by
  cases ev with
  | willAppear actionId st => exact schedInv_start s h actionId st
  | didReceiveSettings actionId st => exact schedInv_start s h actionId st
  | willDisappear actionId => exact schedInv_disappear s h actionId

/-- The invariant is preserved by any event sequence. -/
theorem schedInv_foldl (evs : List SchedEvent) :
    ∀ s, SchedInv s → SchedInv (evs.foldl step s) := by
  induction evs with
  | nil => intro s h; exact h
  | cons e evs ih => intro s h; exact ih (step s e) (schedInv_step s h e)

/-- Every reachable scheduler state satisfies the invariant. -/
theorem schedInv_run (evs : List SchedEvent) : SchedInv (run evs) :=
  schedInv_foldl evs schedInit schedInv_init

/-- In an invariant state, at most one live timer per action. -/
theorem countActiveFor_le_one (s : SchedState) (h : SchedInv s)
    (actionId : String) : countActiveFor s actionId ≤ 1 :=
  filter_owner_length_le_one s.activeTimers h.2 actionId

/-- Starting a refresh leaves exactly one live timer for the action. -/
theorem countActiveFor_start_self (s : SchedState) (h : SchedInv s)
    (actionId : String) (st : Settings) :
    countActiveFor (startRefreshInterval s actionId st) actionId = 1 := by
  obtain ⟨hA, hP⟩ := h
  cases hsome : s.refreshIntervals actionId with
  | some told =>
      simp only [countActiveFor, startRefreshInterval, hsome]
      rw [List.filter_append, filter_owner_eq_nil (survivor_not_owner_some hA hsome)]
      simp
  | none =>
      simp only [countActiveFor, startRefreshInterval, hsome]
      rw [List.filter_append, filter_owner_eq_nil (not_owner_none hA hsome)]
      simp

/-- C6: in every reachable scheduler state there is at most one live
timer per instance identifier; two successive settings-changed starts for
an instance leave exactly one live timer for it; after
instance-disappear no timer the instance owned can fire (so no pipeline
invocation), and the instance's map entry is removed. -/
theorem claim_C6_single_timer_invariant (evs : List SchedEvent)
    (actionId : String) (st1 st2 : Settings) :
    countActiveFor (run evs) actionId ≤ 1 ∧
    countActiveFor (step (step (run evs) (.didReceiveSettings actionId st1))
      (.didReceiveSettings actionId st2)) actionId = 1 ∧
    (∀ t ∈ (run evs).activeTimers, t.owner = actionId →
      timerCanFire (step (run evs) (.willDisappear actionId)) t.tid = false) ∧
    (step (run evs) (.willDisappear actionId)).refreshIntervals actionId = none := by
  have hInv := schedInv_run evs
  refine ⟨countActiveFor_le_one _ hInv actionId, ?_, ?_, ?_⟩
  · have h1 := schedInv_step _ hInv (.didReceiveSettings actionId st1)
    exact countActiveFor_start_self _ h1 actionId st2
  · intro t ht howner
    have hsome : (run evs).refreshIntervals actionId = some t.tid := by
      have hmap := hInv.1 t ht
      rw [howner] at hmap
      exact hmap
    show timerCanFire (onWillDisappear (run evs) actionId) t.tid = false
    simp only [onWillDisappear, hsome, timerCanFire]
    rw [Bool.eq_false_iff]
    intro hany
    rw [List.any_eq_true] at hany
    obtain ⟨x, hx, hpx⟩ := hany
    rw [mem_clearTimer] at hx
    exact hx.2 (by simpa using hpx)
  · cases hsome : (run evs).refreshIntervals actionId with
    | none =>
        show (onWillDisappear (run evs) actionId).refreshIntervals actionId = none
        simp [onWillDisappear, hsome]
    | some told =>
        show (onWillDisappear (run evs) actionId).refreshIntervals actionId = none
        simp [onWillDisappear, hsome]

/-- Witness for C6: appear then disappear for instance "a" — the timer
handle 0 created on appear can no longer fire. -/
theorem claim_C6_single_timer_invariant_witness :
    timerCanFire (step (run [SchedEvent.willAppear "a" ⟨none, none, none⟩])
      (SchedEvent.willDisappear "a")) 0 = false :=
  (claim_C6_single_timer_invariant [SchedEvent.willAppear "a" ⟨none, none, none⟩]
    "a" ⟨none, none, none⟩ ⟨none, none, none⟩).2.2.1
    ⟨0, "a", some 60000⟩ (by decide) rfl

/-- Counterexample for C9: with `refreshInterval = "abc"` (unparsable),
the started timer's interval is `NaN` (`none`), not the claimed default
60000 ms. -/
theorem claim_C9_default_interval_counterexample :
    (startRefreshInterval schedInit "a" ⟨none, none, some "abc"⟩).activeTimers.map
      Timer.intervalMs = [none] ∧
    (none : Option Int) ≠ some 60000 := by
  constructor
  · decide
  · decide

/-- C9 (amended): on instance-appear and on settings-changed the
scheduler registers a timer whose interval is
`parseInt(refreshInterval, 10)`; the 60000 ms default applies exactly
when the setting is unspecified or empty, while a parsable string yields
its parsed value (and an unparsable one yields `NaN`, not the default). -/
theorem claim_C9_refresh_interval_amended (s : SchedState) (actionId : String)
    (st : Settings) :
    (∃ rest, (startRefreshInterval s actionId st).activeTimers =
      rest ++ [⟨s.nextTid, actionId, refreshMsOf st⟩]) ∧
    ((st.refreshInterval = none ∨ st.refreshInterval = some "") →
      refreshMsOf st = some 60000) ∧
    (∀ str, st.refreshInterval = some str → str ≠ "" →
      refreshMsOf st = parseIntJs str) ∧
    step s (.willAppear actionId st) = startRefreshInterval s actionId st ∧
    step s (.didReceiveSettings actionId st) = startRefreshInterval s actionId st := by
  refine ⟨⟨_, rfl⟩, ?_, ?_, rfl, rfl⟩
  · intro h
    rcases h with h | h <;> rw [refreshMsOf, h] <;> decide
  · intro str h hne
    rw [refreshMsOf, h]
    show parseIntJs (if str = "" then "60000" else str) = parseIntJs str
    rw [if_neg hne]

/-- Witness for C9 (amended): a parsable setting "5000" gives a 5000 ms
timer, an absent setting gives the 60000 ms default. -/
theorem claim_C9_refresh_interval_amended_witness :
    refreshMsOf ⟨none, none, some "5000"⟩ = some 5000 ∧
    refreshMsOf ⟨none, none, none⟩ = some 60000 ∧
    (∃ rest, (startRefreshInterval schedInit "a" ⟨none, none, some "5000"⟩).activeTimers =
      rest ++ [⟨0, "a", some 5000⟩]) := by
  have h5 := (claim_C9_refresh_interval_amended schedInit "a"
    ⟨none, none, some "5000"⟩).2.2.1 "5000" rfl (by decide)
  have h5v : refreshMsOf ⟨none, none, some "5000"⟩ = some 5000 := by
    rw [h5]; decide
  have h6 := (claim_C9_refresh_interval_amended schedInit "a"
    ⟨none, none, none⟩).2.1 (Or.inl rfl)
  obtain ⟨rest, hr⟩ := (claim_C9_refresh_interval_amended schedInit "a"
    ⟨none, none, some "5000"⟩).1
  refine ⟨h5v, h6, ⟨rest, ?_⟩⟩
  rw [hr, h5v]
  rfl

end StockWatcher
